import Mathlib

/-!
Verification of the codebook-backend upload-to-analysis pipeline.

Shallow embedding of the core services:
* `src/services/codebook_processor.py` — `CodebookProcessor.process_upload`,
  `CodebookProcessor._build_item_records`
* `src/services/csv_parser.py` — `detect_columns`, `normalize_items`
* `src/services/llm.py` — `LLMService.analyze_and_code_items`,
  `LLMService._analyze_batch`, `LLMService._generate_summary`

Python dictionaries are modelled as association lists, Python `None` as
`Option.none`, Python string/dict truthiness via explicit helpers, and
machine floats by their exact rational value (the code only tests a float
for being mathematically integral, `val == int(val)`, which is exact).
-/

namespace Codebook

/-! ### Decimal rendering of naturals

Python's `f"{base}-{counter}"` and `f"Item {i+1}"` render a nonnegative
integer in decimal.  We embed that rendering with an explicit structural
fuel (`fuel > n` always suffices) so that it reduces inside `decide`/`rfl`,
and prove it injective via a round-trip through `ofDigits`. -/

/-- Decimal digits of `n` (most significant first), with structural fuel. -/
def natToDigits : Nat → Nat → List Char
  | 0, _ => []
  | fuel+1, n =>
    if n < 10 then [Nat.digitChar n]
    else natToDigits fuel (n / 10) ++ [Nat.digitChar (n % 10)]

/-- Decimal rendering of a natural number, as Python's `str` does it. -/
def natRepr (n : Nat) : String := ⟨natToDigits (n + 1) n⟩

/-- Read a digit list back as a natural number. -/
def ofDigits (l : List Char) : Nat := l.foldl (fun a c => a * 10 + (c.toNat - 48)) 0

theorem digitChar_val : ∀ n, n < 10 → (Nat.digitChar n).toNat - 48 = n := by decide

theorem ofDigits_append (l : List Char) (c : Char) :
    ofDigits (l ++ [c]) = ofDigits l * 10 + (c.toNat - 48) := by
  simp [ofDigits]

theorem ofDigits_natToDigits : ∀ fuel n, n < fuel → ofDigits (natToDigits fuel n) = n := by
  intro fuel
  induction fuel with
  | zero => intro n h; omega
  | succ f ih =>
    intro n h
    by_cases h10 : n < 10
    · simp only [natToDigits, if_pos h10]
      have := digitChar_val n h10
      simp [ofDigits, this]
    · simp only [natToDigits, if_neg h10]
      rw [ofDigits_append]
      have hdiv : n / 10 < f := by omega
      rw [ih (n / 10) hdiv]
      have := digitChar_val (n % 10) (Nat.mod_lt n (by omega))
      rw [this]
      omega

theorem natRepr_injective : Function.Injective natRepr := by
  intro m n h
  have hd : natToDigits (m + 1) m = natToDigits (n + 1) n := congrArg String.data h
  have := congrArg ofDigits hd
  rwa [ofDigits_natToDigits _ m (by omega), ofDigits_natToDigits _ n (by omega)] at this

example : natRepr 0 = "0" := by decide
example : natRepr 1234 = "1234" := by decide

/-! ### Python string primitives

`str.strip()` and `str.lower()` are modelled over the underlying character
list so that they evaluate under `decide`. -/

/-- Characters removed by Python's `str.strip()`. -/
def pySpace (c : Char) : Bool :=
  c = ' ' || c = '\t' || c = '\n' || c = '\x0d' || c = '\x0b' || c = '\x0c'

/-- Python `str.strip()`. -/
def pyStrip (s : String) : String :=
  ⟨((s.data.dropWhile pySpace).reverse.dropWhile pySpace).reverse⟩

/-- Python `str.lower()` (ASCII case folding, which is all the code relies on). -/
def pyLower (s : String) : String := ⟨s.data.map Char.toLower⟩

/-- `.strip().lower()`, the normalization applied to lookup keys. -/
def normKey (s : String) : String := pyLower (pyStrip s)

/-! sanity checks that concrete string operations evaluate -/
example : normKey "  Qty " = "qty" := by decide
example : normKey ("Item " ++ natRepr 3) = "item 3" := by decide

/-! ### Data model

Cell values of the uploaded table.  A Python float is represented by its
exact rational value: the only question the code asks of a float is
`val == int(val)`, i.e. whether it is mathematically integral, which on the
exact value is `q.den = 1`. -/

inductive CellVal where
  | str (v : String)
  | int (v : Int)
  | float (v : Rat)
deriving DecidableEq, Repr

/-- Decimal rendering of an integer (Python `str` on `int`). -/
def intRepr (v : Int) : String :=
  if v < 0 then "-" ++ natRepr v.natAbs else natRepr v.natAbs

/-- Python `str()` applied to a cell value.  The pipeline never depends on the
exact rendering of a float, so a float renders as `num/den` here. -/
def pyStr : CellVal → String
  | .str v => v
  | .int v => intRepr v
  | .float q => intRepr q.num ++ "/" ++ natRepr q.den

/-- A Python dict with string keys, as an insertion-ordered association list
(every key occurs at most once because inserts replace in place). -/
abbrev MetaMap := List (String × CellVal)

/-- First-match association-list lookup (`dict.get`). -/
def alookup {β : Type} : List (String × β) → String → Option β
  | [], _ => none
  | (k, v) :: t, a => if k = a then some v else alookup t a

/-- `dict[k] = v`: replace in place if the key exists, else append. -/
def mdInsert : MetaMap → String → CellVal → MetaMap
  | [], k, v => [(k, v)]
  | (k', v') :: t, k, v => if k' = k then (k, v) :: t else (k', v') :: mdInsert t k v

/-- A normalized uploaded row (output of `normalize_items`, input of the
processor).  `none` is Python `None` / a missing key. -/
structure RowRecord where
  original_label : Option String := none
  description : Option String := none
  application : Option String := none
  metadata : Option MetaMap := none
deriving DecidableEq, Repr

/-- One item of the model's JSON output (`llm_result["items"][i]`);
every field is optional because the dict may lack any key. -/
structure ModelItem where
  code : Option String := none
  original_label : Option String := none
  description : Option String := none
  application : Option String := none
  csi_division : Option String := none
  csi_section : Option String := none
  metadata : Option MetaMap := none
deriving DecidableEq, Repr

/-- A database-ready codebook item record built by `_build_item_records`. -/
structure DbRecord where
  version_id : String
  client_id : String
  original_label : String
  description : Option String
  code : String
  application : Option String
  csi_division : Option String
  csi_section : Option String
  metadata : Option MetaMap
deriving DecidableEq, Repr

/-! ### Python truthiness helpers -/

/-- Truthiness of an optional string (`None` and `""` are falsy). -/
def pyTruthyStr : Option String → Bool
  | some s => s ≠ ""
  | none => false

/-- Python `a or b` on optional strings. -/
def pyOrStr (a b : Option String) : Option String :=
  if pyTruthyStr a then a else b

/-- Truthiness of an optional dict (`None` and `{}` are falsy). -/
def pyTruthyMeta : Option MetaMap → Bool
  | some m => m ≠ []
  | none => false

/-- Python `a or b` on optional dicts. -/
def pyOrMeta (a b : Option MetaMap) : Option MetaMap :=
  if pyTruthyMeta a then a else b

/-! ### `CodebookProcessor._build_item_records`
(`src/services/codebook_processor.py`, lines 138-192) -/

/-- `f"{base_code}-{counter}"`. -/
def candidateCode (base : String) (k : Nat) : String := base ++ "-" ++ natRepr k

/-- The `while code in seen_codes` loop, trying counters `k, k+1, ...`.
`seen.length + 1` fuel always suffices (proved below), so the fuel-out
branch is unreachable. -/
def findFreeCode (seen : List String) (base : String) : Nat → Nat → String
  | 0, k => candidateCode base k
  | fuel+1, k =>
    if candidateCode base k ∈ seen then findFreeCode seen base fuel (k+1)
    else candidateCode base k

/-- Lines 161-165: keep `code` if fresh, else append `-1`, `-2`, … until
the candidate is not in `seen_codes`. -/
def resolveCode (seen : List String) (code : String) : String :=
  if code ∈ seen then findFreeCode seen code (seen.length + 1) 1 else code

/-- `f"{i+1:04d}"`: decimal, left-padded with zeros to width 4. -/
def pad4 (n : Nat) : String :=
  let s := natRepr n
  if s.length < 4 then String.mk (List.replicate (4 - s.length) '0') ++ s else s

/-- Line 158: `llm_item.get("code", f"UNCLASSIFIED-{i+1:04d}")`. -/
def proposedCode (i : Nat) (m : ModelItem) : String :=
  m.code.getD ("UNCLASSIFIED-" ++ pad4 (i + 1))

/-- Line 168: `llm_item.get("original_label", f"Item {i+1}")`'s default. -/
def syntheticLabel (i : Nat) : String := "Item " ++ natRepr (i + 1)

/-- Lines 149-153: the `original_lookup` dict keyed by the stripped,
lower-cased `original_label` of each original row (empty keys skipped,
later rows overwrite earlier ones), followed by `.get(key, {})`.
Folding left with the accumulator overwritten on each match reproduces
the last-writer-wins dict semantics. -/
def origLookup (rows : List RowRecord) (key : String) : Option RowRecord :=
  rows.foldl
    (fun acc r =>
      if normKey (r.original_label.getD "") ≠ "" ∧ normKey (r.original_label.getD "") = key
      then some r else acc)
    none

/-- The closed application vocabulary (line 175). -/
def validApps : List String := ["sanitary_sewer", "storm_sewer", "water", "other"]

/-- Lines 174-177: precedence (`llm_item.get("application") or
orig.get("application")`) then coercion of a truthy out-of-vocabulary
value to `"other"`. -/
def resolveApplication (m : ModelItem) (orig : Option RowRecord) : Option String :=
  let app := pyOrStr m.application (orig.bind (·.application))
  match app with
  | some s => if s ≠ "" ∧ s ∉ validApps then some "other" else some s
  | none => none

/-- Lines 168-189: the record built for the `i`-th model item once its
unique `code` has been chosen. -/
def buildRecord (versionId clientId : String) (rows : List RowRecord)
    (i : Nat) (m : ModelItem) (code : String) : DbRecord :=
  { version_id := versionId
    client_id := clientId
    original_label := m.original_label.getD (syntheticLabel i)
    description := pyOrStr m.description
      ((origLookup rows (normKey (m.original_label.getD (syntheticLabel i)))).bind
        (·.description))
    code := code
    application := resolveApplication m
      (origLookup rows (normKey (m.original_label.getD (syntheticLabel i))))
    csi_division := m.csi_division
    csi_section := m.csi_section
    metadata := pyOrMeta m.metadata
      ((origLookup rows (normKey (m.original_label.getD (syntheticLabel i)))).bind
        (·.metadata)) }

/-- The `for i, llm_item in enumerate(llm_items)` loop, carrying the index
and the `seen_codes` set (as a list whose membership is what matters). -/
def buildItemRecordsGo (versionId clientId : String) (rows : List RowRecord) :
    Nat → List String → List ModelItem → List DbRecord
  | _, _, [] => []
  | i, seen, m :: rest =>
    let code := resolveCode seen (proposedCode i m)
    buildRecord versionId clientId rows i m code ::
      buildItemRecordsGo versionId clientId rows (i + 1) (code :: seen) rest

/-- `CodebookProcessor._build_item_records` (lines 138-192).  The Python
code builds `original_lookup` once up front; `origLookup` recomputes the
same dict lookup at each use, which is extensionally identical. -/
def _build_item_records (llmItems : List ModelItem) (originalItems : List RowRecord)
    (versionId clientId : String) : List DbRecord :=
  buildItemRecordsGo versionId clientId originalItems 0 [] llmItems

example :
    (_build_item_records
      [{ code := some "A" }, { code := some "A" }, { code := some "A" }] [] "v" "c").map
      (·.code) = ["A", "A-1", "A-2"] := by decide

example :
    (_build_item_records [{ original_label := some "x" }] [] "v" "c").map (·.code) =
      ["UNCLASSIFIED-0001"] := by decide

/-! ### Freshness of `resolveCode` -/

theorem string_append_left_cancel {a b c : String} (h : a ++ b = a ++ c) : b = c := by
  have hd : a.data ++ b.data = a.data ++ c.data := by
    have h1 := congrArg String.data h
    simpa [String.instAppend, String.append] using h1
  exact String.ext (List.append_cancel_left hd)

theorem candidateCode_injective (base : String) :
    Function.Injective (candidateCode base) := by
  intro j k h
  unfold candidateCode at h
  exact natRepr_injective (string_append_left_cancel (a := base ++ "-") h)

/-- Pigeonhole: among `seen.length + 1` successive candidates at least one
is not in `seen`. -/
theorem exists_candidate_not_mem (seen : List String) (base : String) (c : Nat) :
    ∃ j, j < seen.length + 1 ∧ candidateCode base (c + j) ∉ seen := by
  by_contra hcon
  push_neg at hcon
  set L := (List.range (seen.length + 1)).map (fun j => candidateCode base (c + j)) with hL
  have hnodup : L.Nodup := by
    refine (List.nodup_range _).map ?_
    intro j₁ j₂ hj
    have := candidateCode_injective base hj
    omega
  have hsub : L ⊆ seen := by
    intro x hx
    rw [hL, List.mem_map] at hx
    obtain ⟨j, hj, rfl⟩ := hx
    exact hcon j (List.mem_range.mp hj)
  have h1 : L.toFinset.card = seen.length + 1 := by
    rw [List.toFinset_card_of_nodup hnodup, hL, List.length_map, List.length_range]
  have h2 : L.toFinset ⊆ seen.toFinset := by
    intro x hx
    rw [List.mem_toFinset] at hx ⊢
    exact hsub hx
  have h3 := Finset.card_le_card h2
  have h4 := List.toFinset_card_le seen
  omega

theorem findFreeCode_not_mem (seen : List String) (base : String) :
    ∀ fuel c, (∃ j, j < fuel ∧ candidateCode base (c + j) ∉ seen) →
      findFreeCode seen base fuel c ∉ seen := by
  intro fuel
  induction fuel with
  | zero => intro c ⟨j, hj, _⟩; omega
  | succ f ih =>
    intro c ⟨j, hj, hfree⟩
    by_cases hc : candidateCode base c ∈ seen
    · simp only [findFreeCode, if_pos hc]
      refine ih (c + 1) ⟨j - 1, ?_, ?_⟩
      · rcases Nat.eq_zero_or_pos j with rfl | hpos
        · simp at hfree; exact absurd hc hfree
        · omega
      · rcases Nat.eq_zero_or_pos j with rfl | hpos
        · simp at hfree; exact absurd hc hfree
        · have : c + 1 + (j - 1) = c + j := by omega
          rwa [this]
    · simp only [findFreeCode, if_neg hc]
      exact hc

/-- The chosen code is never one of the already-emitted codes. -/
theorem resolveCode_not_mem (seen : List String) (code : String) :
    resolveCode seen code ∉ seen := by
  unfold resolveCode
  by_cases h : code ∈ seen
  · simp only [if_pos h]
    exact findFreeCode_not_mem seen code _ 1 (by
      obtain ⟨j, hj, hfree⟩ := exists_candidate_not_mem seen code 1
      exact ⟨j, by omega, hfree⟩)
  · simp only [if_neg h]
    exact h

/-- A code that does not collide is kept unchanged. -/
theorem resolveCode_eq_of_not_mem {seen : List String} {code : String}
    (h : code ∉ seen) : resolveCode seen code = code := by
  simp [resolveCode, h]

/-! ### Structure of the reconciliation loop -/

/-- The sequence of `code` values emitted by the loop, with the running
`seen_codes` accumulator made explicit. -/
def emittedCodes (i : Nat) (seen : List String) : List ModelItem → List String
  | [] => []
  | m :: rest =>
    let c := resolveCode seen (proposedCode i m)
    c :: emittedCodes (i + 1) (c :: seen) rest

theorem emittedCodes_length :
    ∀ (items : List ModelItem) (i : Nat) (seen : List String),
      (emittedCodes i seen items).length = items.length := by
  intro items
  induction items with
  | nil => intro i seen; rfl
  | cons m rest ih => intro i seen; simp [emittedCodes, ih]

theorem buildItemRecordsGo_length (v c : String) (rows : List RowRecord) :
    ∀ (items : List ModelItem) (i : Nat) (seen : List String),
      (buildItemRecordsGo v c rows i seen items).length = items.length := by
  intro items
  induction items with
  | nil => intro i seen; rfl
  | cons m rest ih => intro i seen; simp [buildItemRecordsGo, ih]

theorem buildItemRecordsGo_map_code (v c : String) (rows : List RowRecord) :
    ∀ (items : List ModelItem) (i : Nat) (seen : List String),
      (buildItemRecordsGo v c rows i seen items).map (·.code) = emittedCodes i seen items := by
  intro items
  induction items with
  | nil => intro i seen; rfl
  | cons m rest ih =>
    intro i seen
    simp only [buildItemRecordsGo, emittedCodes, List.map_cons, ih]
    rfl

theorem buildItemRecordsGo_get (v c : String) (rows : List RowRecord) :
    ∀ (items : List ModelItem) (i : Nat) (seen : List String) (j : Nat)
      (h : j < items.length),
      (buildItemRecordsGo v c rows i seen items).get
          ⟨j, by rw [buildItemRecordsGo_length]; exact h⟩ =
        buildRecord v c rows (i + j) (items.get ⟨j, h⟩)
          ((emittedCodes i seen items).get ⟨j, by rw [emittedCodes_length]; exact h⟩) := by
  intro items
  induction items with
  | nil => intro i seen j h; exact absurd h (by simp)
  | cons m rest ih =>
    intro i seen j h
    cases j with
    | zero => simp [buildItemRecordsGo, emittedCodes]
    | succ jj =>
      have hjj : jj < rest.length := by simpa using h
      have hstep := ih (i + 1) (resolveCode seen (proposedCode i m) :: seen) jj hjj
      have hidx : i + (jj + 1) = i + 1 + jj := by omega
      simp only [buildItemRecordsGo, emittedCodes, List.get_cons_succ, hidx]
      exact hstep

/-- The emitted codes are pairwise distinct and avoid everything in `seen`. -/
theorem emittedCodes_nodup :
    ∀ (items : List ModelItem) (i : Nat) (seen : List String),
      (emittedCodes i seen items).Nodup ∧
        ∀ x ∈ emittedCodes i seen items, x ∉ seen := by
  intro items
  induction items with
  | nil => intro i seen; exact ⟨List.nodup_nil, by simp [emittedCodes]⟩
  | cons m rest ih =>
    intro i seen
    obtain ⟨hnd, hdisj⟩ := ih (i + 1) (resolveCode seen (proposedCode i m) :: seen)
    constructor
    · refine List.nodup_cons.mpr ⟨?_, hnd⟩
      intro hmem
      exact hdisj _ hmem (List.mem_cons_self _ _)
    · intro x hx
      rcases List.mem_cons.mp hx with rfl | hx'
      · exact resolveCode_not_mem seen _
      · intro hxs
        exact hdisj _ hx' (List.mem_cons_of_mem _ hxs)

/-- An item whose proposed code is fresh — not in the initial `seen` set and
different from every code emitted for an earlier item — keeps it. -/
theorem emittedCodes_keep :
    ∀ (items : List ModelItem) (i : Nat) (seen : List String) (j : Nat)
      (h : j < items.length),
      proposedCode (i + j) (items.get ⟨j, h⟩) ∉ seen →
      (∀ k (hk : k < j),
        (emittedCodes i seen items).get
            ⟨k, by rw [emittedCodes_length]; omega⟩ ≠
          proposedCode (i + j) (items.get ⟨j, h⟩)) →
      (emittedCodes i seen items).get ⟨j, by rw [emittedCodes_length]; exact h⟩ =
        proposedCode (i + j) (items.get ⟨j, h⟩) := by
  intro items
  induction items with
  | nil => intro i seen j h; exact absurd h (by simp)
  | cons m rest ih =>
    intro i seen j h hseen hearlier
    cases j with
    | zero =>
      simp only [emittedCodes, List.get]
      simp only [List.get] at hseen
      exact resolveCode_eq_of_not_mem (by simpa using hseen)
    | succ jj =>
      have hjj : jj < rest.length := by simpa using h
      have hhead :
          resolveCode seen (proposedCode i m) ≠
            proposedCode (i + (jj + 1)) ((m :: rest).get ⟨jj + 1, h⟩) := by
        have := hearlier 0 (by omega)
        simpa [emittedCodes] using this
      have hseen' :
          proposedCode (i + 1 + jj) (rest.get ⟨jj, hjj⟩) ∉
            resolveCode seen (proposedCode i m) :: seen := by
        intro hmem
        rcases List.mem_cons.mp hmem with heq | hmem'
        · exact hhead (by
            have hidx : i + (jj + 1) = i + 1 + jj := by omega
            simp only [List.get_cons_succ, hidx]
            exact heq.symm)
        · have hseen2 : proposedCode (i + 1 + jj) (rest.get ⟨jj, hjj⟩) ∉ seen := by
            simpa [List.get_cons_succ, show i + (jj + 1) = i + 1 + jj by omega] using hseen
          exact hseen2 hmem'
      have hearlier' : ∀ k (hk : k < jj),
          (emittedCodes (i + 1) (resolveCode seen (proposedCode i m) :: seen) rest).get
              ⟨k, by rw [emittedCodes_length]; omega⟩ ≠
            proposedCode (i + 1 + jj) (rest.get ⟨jj, hjj⟩) := by
        intro k hk
        have := hearlier (k + 1) (by omega)
        simpa [emittedCodes, List.get_cons_succ,
          show i + (jj + 1) = i + 1 + jj by omega] using this
      have := ih (i + 1) (resolveCode seen (proposedCode i m) :: seen) jj hjj hseen' hearlier'
      simpa [emittedCodes, List.get_cons_succ,
        show i + (jj + 1) = i + 1 + jj by omega] using this

/-- `dict.get` misses when no row's normalized label equals the key. -/
theorem origLookup_eq_none {rows : List RowRecord} {key : String}
    (h : ∀ r ∈ rows, normKey (r.original_label.getD "") ≠ key) :
    origLookup rows key = none := by
  unfold origLookup
  suffices hgen : ∀ (l : List RowRecord) (acc : Option RowRecord),
      (∀ r ∈ l, normKey (r.original_label.getD "") ≠ key) →
      l.foldl
        (fun acc r =>
          if normKey (r.original_label.getD "") ≠ "" ∧ normKey (r.original_label.getD "") = key
          then some r else acc) acc = acc by
    exact hgen rows none h
  intro l
  induction l with
  | nil => intro acc _; rfl
  | cons r t ih =>
    intro acc hl
    have hr := hl r (List.mem_cons_self _ _)
    have hcond : ¬(normKey (r.original_label.getD "") ≠ "" ∧
        normKey (r.original_label.getD "") = key) := by
      intro hc; exact hr hc.2
    simp only [List.foldl_cons]
    rw [if_neg hcond]
    exact ih acc (fun x hx => hl x (List.mem_cons_of_mem _ hx))

theorem build_item_records_length (llmItems : List ModelItem)
    (rows : List RowRecord) (vId cId : String) :
    (_build_item_records llmItems rows vId cId).length = llmItems.length :=
  buildItemRecordsGo_length vId cId rows llmItems 0 []

/-! ### Claim theorems about `_build_item_records` -/

/-- C1 (amended): `_build_item_records` returns one record per model item
and the emitted `code` values are pairwise distinct; a model item whose
proposed code differs from every code emitted for an *earlier item* keeps
its proposed code unchanged.  (The original claim's condition — the
proposed code is merely not duplicated in the input — is not sufficient,
see the counterexample: a collision-generated suffix `-1` can itself
collide with a later item's unique proposed code.) -/
theorem C1_reconcile_code_uniqueness (llmItems : List ModelItem)
    (rows : List RowRecord) (vId cId : String) :
    (_build_item_records llmItems rows vId cId).length = llmItems.length
    ∧ ((_build_item_records llmItems rows vId cId).map (·.code)).Nodup
    ∧ ∀ j (h : j < llmItems.length),
        (∀ k (hk : k < j),
          ((_build_item_records llmItems rows vId cId).get
              ⟨k, by rw [build_item_records_length]; omega⟩).code ≠
            proposedCode j (llmItems.get ⟨j, h⟩)) →
        ((_build_item_records llmItems rows vId cId).get
            ⟨j, by rw [build_item_records_length]; exact h⟩).code =
          proposedCode j (llmItems.get ⟨j, h⟩) := by
  refine ⟨buildItemRecordsGo_length vId cId rows llmItems 0 [], ?_, ?_⟩
  · unfold _build_item_records
    rw [buildItemRecordsGo_map_code]
    exact (emittedCodes_nodup llmItems 0 []).1
  · intro j h hearlier
    have hcode : ∀ k (hk : k < llmItems.length),
        ((_build_item_records llmItems rows vId cId).get
            ⟨k, by rw [build_item_records_length]; exact hk⟩).code =
          (emittedCodes 0 [] llmItems).get ⟨k, by rw [emittedCodes_length]; exact hk⟩ := by
      intro k hk
      have := buildItemRecordsGo_get vId cId rows llmItems 0 [] k hk
      unfold _build_item_records
      rw [this]
      rfl
    rw [hcode j h]
    have hkeep := emittedCodes_keep llmItems 0 [] j h
    simp only [Nat.zero_add] at hkeep
    refine hkeep (List.not_mem_nil _) ?_
    intro k hk
    have := hearlier k hk
    rwa [hcode k (by omega)] at this

/-- C1 counterexample: with proposed codes `["A", "A", "A-1"]` the third
item's proposed code `"A-1"` occurs exactly once in the input (it is not
duplicated), yet the output renames it to `"A-1-1"` because the second
item's collision already emitted `"A-1"`.  This refutes the claim that
every item whose proposed code is not duplicated in the input keeps it. -/
theorem C1_counterexample :
    [proposedCode 0 { code := some "A" }, proposedCode 1 { code := some "A" },
        proposedCode 2 { code := some "A-1" }] = ["A", "A", "A-1"]
    ∧ (["A", "A", "A-1"].count "A-1") = 1
    ∧ (_build_item_records
        [{ code := some "A" }, { code := some "A" }, { code := some "A-1" }] [] "v" "c").map
        (·.code) = ["A", "A-1", "A-1-1"]
    ∧ ("A-1-1" : String) ≠ "A-1" :=
  ⟨by decide, by decide, by decide, by decide⟩

/-- Witness for C1: two items proposing the same code `"A"`; the first one
(no earlier item) keeps its code, the list has length 2 and distinct codes. -/
theorem C1_reconcile_code_uniqueness_witness :
    (_build_item_records [{ code := some "A" }, { code := some "A" }] [] "v" "c").length = 2
    ∧ ((_build_item_records [{ code := some "A" }, { code := some "A" }] [] "v" "c").map
        (·.code)).Nodup
    ∧ ((_build_item_records [{ code := some "A" }, { code := some "A" }] [] "v" "c").get
        ⟨0, by decide⟩).code = proposedCode 0 { code := some "A" } := by
  obtain ⟨h1, h2, h3⟩ :=
    C1_reconcile_code_uniqueness [{ code := some "A" }, { code := some "A" }] [] "v" "c"
  exact ⟨h1, h2, h3 0 (by decide) (fun k hk => absurd hk (Nat.not_lt_zero k))⟩

/-- C4: for every record built by reconciliation, the stored `application`
is the precedence-resolved value (`llm_item.get("application") or
orig.get("application")`) with a truthy out-of-vocabulary value coerced to
exactly `"other"`, and an absent value left absent. -/
theorem C4_application_coercion (llmItems : List ModelItem) (rows : List RowRecord)
    (vId cId : String) (j : Nat) (h : j < llmItems.length) :
    ((_build_item_records llmItems rows vId cId).get
        ⟨j, by rw [build_item_records_length]; exact h⟩).application =
      resolveApplication (llmItems.get ⟨j, h⟩)
        (origLookup rows
          (normKey ((llmItems.get ⟨j, h⟩).original_label.getD (syntheticLabel j))))
    ∧ (∀ s,
        pyOrStr (llmItems.get ⟨j, h⟩).application
            ((origLookup rows
              (normKey ((llmItems.get ⟨j, h⟩).original_label.getD (syntheticLabel j)))).bind
              (·.application)) = some s →
        s ≠ "" → s ∉ validApps →
        ((_build_item_records llmItems rows vId cId).get
            ⟨j, by rw [build_item_records_length]; exact h⟩).application =
          some "other")
    ∧ (pyOrStr (llmItems.get ⟨j, h⟩).application
          ((origLookup rows
            (normKey ((llmItems.get ⟨j, h⟩).original_label.getD (syntheticLabel j)))).bind
            (·.application)) = none →
        ((_build_item_records llmItems rows vId cId).get
            ⟨j, by rw [build_item_records_length]; exact h⟩).application =
          none) := by
  have hget := buildItemRecordsGo_get vId cId rows llmItems 0 [] j h
  simp only [Nat.zero_add] at hget
  have happ :
      ((_build_item_records llmItems rows vId cId).get
          ⟨j, by rw [build_item_records_length]; exact h⟩).application =
        resolveApplication (llmItems.get ⟨j, h⟩)
          (origLookup rows
            (normKey ((llmItems.get ⟨j, h⟩).original_label.getD (syntheticLabel j)))) := by
    unfold _build_item_records
    rw [hget]
    rfl
  refine ⟨happ, ?_, ?_⟩
  · intro s hs hne hnotin
    rw [happ]
    unfold resolveApplication
    rw [hs]
    simp only [if_pos (And.intro hne hnotin)]
  · intro hnone
    rw [happ]
    unfold resolveApplication
    rw [hnone]

/-- Witness for C4: the model asserts application `"gas"`, which is not in
the closed vocabulary, so the stored value is exactly `"other"`. -/
theorem C4_application_coercion_witness :
    ((_build_item_records [{ application := some "gas" }] [] "v" "c").get
        ⟨0, by decide⟩).application = some "other" := by
  have h := (C4_application_coercion [{ application := some "gas" }] [] "v" "c" 0
    (by decide)).2.1
  exact h "gas" (by decide) (by decide) (by decide)

/-- C10: a model item with no `original_label` key gets the synthetic label
`"Item N"` (`N` the 1-based position), and — provided no original row's
stripped lower-cased label equals the normalized synthetic label
(`"item n"`) — its description, application and metadata are computed as
if there were no matching original row (nothing is merged). -/
theorem C10_synthetic_label_no_merge (llmItems : List ModelItem)
    (rows : List RowRecord) (vId cId : String) (j : Nat) (h : j < llmItems.length)
    (hnolabel : (llmItems.get ⟨j, h⟩).original_label = none)
    (hnomatch : ∀ r ∈ rows,
      normKey (r.original_label.getD "") ≠ normKey (syntheticLabel j)) :
    ((_build_item_records llmItems rows vId cId).get
        ⟨j, by rw [build_item_records_length]; exact h⟩).original_label =
      syntheticLabel j
    ∧ ((_build_item_records llmItems rows vId cId).get
        ⟨j, by rw [build_item_records_length]; exact h⟩).description =
      pyOrStr (llmItems.get ⟨j, h⟩).description none
    ∧ ((_build_item_records llmItems rows vId cId).get
        ⟨j, by rw [build_item_records_length]; exact h⟩).application =
      resolveApplication (llmItems.get ⟨j, h⟩) none
    ∧ ((_build_item_records llmItems rows vId cId).get
        ⟨j, by rw [build_item_records_length]; exact h⟩).metadata =
      pyOrMeta (llmItems.get ⟨j, h⟩).metadata none := by
  have hget := buildItemRecordsGo_get vId cId rows llmItems 0 [] j h
  simp only [Nat.zero_add] at hget
  unfold _build_item_records
  rw [hget]
  unfold buildRecord
  rw [hnolabel]
  have hlk : origLookup rows
      (normKey ((none : Option String).getD (syntheticLabel j))) = none :=
    origLookup_eq_none hnomatch
  rw [hlk]
  exact ⟨rfl, rfl, rfl, rfl⟩

/-- Witness for C10: one model item with no `original_label`, one original
row labelled `"Other"`; the record gets label `"Item 1"` and merges
nothing. -/
theorem C10_synthetic_label_no_merge_witness :
    ((_build_item_records [{ code := some "C" }]
        [{ original_label := some "Other" }] "v" "c").get ⟨0, by decide⟩).original_label =
      syntheticLabel 0
    ∧ ((_build_item_records [{ code := some "C" }]
        [{ original_label := some "Other" }] "v" "c").get ⟨0, by decide⟩).description =
      pyOrStr (none : Option String) none
    ∧ ((_build_item_records [{ code := some "C" }]
        [{ original_label := some "Other" }] "v" "c").get ⟨0, by decide⟩).application =
      resolveApplication { code := some "C" } none
    ∧ ((_build_item_records [{ code := some "C" }]
        [{ original_label := some "Other" }] "v" "c").get ⟨0, by decide⟩).metadata =
      pyOrMeta (none : Option MetaMap) none := by
  exact C10_synthetic_label_no_merge [{ code := some "C" }]
    [{ original_label := some "Other" }] "v" "c" 0 (by decide) (by decide)
    (by intro r hr; fin_cases hr; decide)

/-! ### `csv_parser.detect_columns` (`src/services/csv_parser.py`, lines 95-124) -/

/-- Heuristic synonym list for the label column (lines 17-21). -/
def LABEL_COLUMNS : List String :=
  ["item", "name", "label", "description", "material", "title",
   "item_name", "item_description", "material_name", "product",
   "item name", "item description", "material name"]

/-- Synonym list for the description column (lines 22-25). -/
def DESCRIPTION_COLUMNS : List String :=
  ["description", "desc", "details", "notes", "specification",
   "item_description", "item description", "spec"]

/-- Synonym list for the diameter column (lines 26-28). -/
def DIAMETER_COLUMNS : List String :=
  ["diameter", "size", "dia", "nominal_size", "nominal size", "pipe_size", "pipe size"]

/-- Synonym list for the application column (lines 29-32). -/
def APPLICATION_COLUMNS : List String :=
  ["application", "app", "use", "category", "system", "type",
   "application_type", "application type"]

/-- Application synonym table (lines 35-45). -/
def APPLICATION_MAP : List (String × String) :=
  [("sanitary", "sanitary_sewer"), ("sanitary_sewer", "sanitary_sewer"),
   ("sanitary sewer", "sanitary_sewer"), ("storm", "storm_sewer"),
   ("storm_sewer", "storm_sewer"), ("storm sewer", "storm_sewer"),
   ("water", "water"), ("potable", "water"), ("other", "other")]

/-- The 4-slot role-to-column mapping returned by `detect_columns`. -/
structure ColumnMapping where
  label : Option String
  description : Option String
  diameter : Option String
  application : Option String
deriving DecidableEq, Repr

/-- One iteration of the detection loop (lines 105-114): an `elif` chain,
each role claimed by the first matching column while the role is unset. -/
def detectStep (m : ColumnMapping) (col : String) : ColumnMapping :=
  if m.label = none ∧ pyStrip (pyLower col) ∈ LABEL_COLUMNS then
    ⟨some col, m.description, m.diameter, m.application⟩
  else if m.description = none ∧ pyStrip (pyLower col) ∈ DESCRIPTION_COLUMNS then
    ⟨m.label, some col, m.diameter, m.application⟩
  else if m.diameter = none ∧ pyStrip (pyLower col) ∈ DIAMETER_COLUMNS then
    ⟨m.label, m.description, some col, m.application⟩
  else if m.application = none ∧ pyStrip (pyLower col) ∈ APPLICATION_COLUMNS then
    ⟨m.label, m.description, m.diameter, some col⟩
  else m

/-- Lines 117-118: if no label was found, force the first column. -/
def detectFallback (m : ColumnMapping) (cols : List String) : ColumnMapping :=
  if m.label = none ∧ 0 < cols.length then
    ⟨some (cols.headD ""), m.description, m.diameter, m.application⟩
  else m

/-- Lines 121-122: a column cannot serve as both label and description. -/
def detectFinal (m : ColumnMapping) : ColumnMapping :=
  if m.label = m.description then ⟨m.label, none, m.diameter, m.application⟩ else m

/-- `detect_columns` (lines 95-124): scan all columns, then fall back to
the first column for `label` (lines 117-118), then clear `description`
when it coincides with `label` (lines 121-122). -/
def detect_columns (cols : List String) : ColumnMapping :=
  detectFinal (detectFallback (cols.foldl detectStep ⟨none, none, none, none⟩) cols)

example : detect_columns ["Material Name", "Desc", "Size"] =
    ⟨some "Material Name", some "Desc", some "Size", none⟩ := by decide

example : detect_columns ["qty", "price"] = ⟨some "qty", none, none, none⟩ := by decide

/-! ### `csv_parser.normalize_items` (`src/services/csv_parser.py`, lines 127-178) -/

/-- A table row: column name to cell value; a missing key models a
null/NaN cell (`pd.isna`).  `dfGet row c` is `row.get(c)` combined with
the `pd.notna` test. -/
abbrev DRow := List (String × CellVal)

/-- The cell of `row` in column `c`, `none` when null/NaN. -/
def dfGet (row : DRow) (c : String) : Option CellVal := alookup row c

/-- A parsed DataFrame: the column list and the rows. -/
structure DFrame where
  cols : List String
  rows : List DRow
deriving Repr

/-- Lines 156-158: `isinstance(val, float) and val == int(val)` — a
mathematically integral float is stored as the corresponding integer. -/
def normNum : CellVal → CellVal
  | .float q => if q.den = 1 then .int q.num else .float q
  | v => v

/-- Lines 152-159: the metadata dict built from all columns other than the
label/description columns, skipping null cells, with numeric
normalization. -/
def rowMetadata (cols : List String) (row : DRow)
    (labelC descC : Option String) : MetaMap :=
  cols.foldl
    (fun md col =>
      if labelC = some col ∨ descC = some col then md
      else
        match dfGet row col with
        | none => md
        | some v => mdInsert md col (normNum v))
    []

/-- Lines 137-176: normalization of one row; `none` when the row is
skipped because its label is blank after stripping.  Truthiness of a
column name (`if label_col and ...`) is `some c` with `c ≠ ""`. -/
def processRow (cols : List String) (m : ColumnMapping) (row : DRow) :
    Option RowRecord :=
  let lbl :=
    match m.label with
    | some lc =>
      if lc ≠ "" then
        match dfGet row lc with
        | some v => pyStrip (pyStr v)
        | none => ""
      else ""
    | none => ""
  if lbl = "" then none
  else
    let desc :=
      match m.description with
      | some dc =>
        if dc ≠ "" then (dfGet row dc).map (fun v => pyStrip (pyStr v)) else none
      | none => none
    let md0 := rowMetadata cols row m.label m.description
    let app :=
      match m.application with
      | some ac =>
        if ac ≠ "" then
          match dfGet row ac with
          | some v => alookup APPLICATION_MAP (pyLower (pyStrip (pyStr v)))
          | none => none
        else none
      | none => none
    let md1 :=
      match m.diameter with
      | some dc =>
        if dc ≠ "" then
          match dfGet row dc with
          | some v => mdInsert md0 "diameter" v
          | none => md0
        else md0
      | none => md0
    some
      { original_label := some lbl
        description := desc
        application := app
        metadata := if md1 ≠ [] then some md1 else none }

/-- `normalize_items` (lines 127-178): rows with blank labels are silently
dropped. -/
def normalize_items (df : DFrame) (m : ColumnMapping) : List RowRecord :=
  df.rows.filterMap (processRow df.cols m)

example :
    normalize_items
      ⟨["item", "size"], [[("item", .str " Pipe "), ("size", .float 8)]]⟩
      (detect_columns ["item", "size"]) =
    [{ original_label := some "Pipe",
       metadata := some [("size", .int 8), ("diameter", .float 8)] }] := by
  decide

/-! ### Lemmas about `detect_columns` -/

theorem detectStep_label_of_some {m : ColumnMapping} {c0 : String} (col : String)
    (h : m.label = some c0) : (detectStep m col).label = some c0 := by
  unfold detectStep
  split_ifs with h1 h2 h3 h4 <;> simp_all

theorem foldl_detectStep_label_of_some {c0 : String} :
    ∀ (l : List String) (m : ColumnMapping), m.label = some c0 →
      (l.foldl detectStep m).label = some c0 := by
  intro l
  induction l with
  | nil => intro m h; exact h
  | cons col t ih =>
    intro m h
    exact ih (detectStep m col) (detectStep_label_of_some col h)

theorem detectStep_label_of_no_match {m : ColumnMapping} {col : String}
    (h : m.label = none) (hm : pyStrip (pyLower col) ∉ LABEL_COLUMNS) :
    (detectStep m col).label = none := by
  unfold detectStep
  split_ifs with h1 h2 h3 h4 <;> simp_all

theorem foldl_detectStep_label_of_no_match :
    ∀ (l : List String) (m : ColumnMapping), m.label = none →
      (∀ x ∈ l, pyStrip (pyLower x) ∉ LABEL_COLUMNS) →
      (l.foldl detectStep m).label = none := by
  intro l
  induction l with
  | nil => intro m h _; exact h
  | cons col t ih =>
    intro m h hall
    exact ih (detectStep m col)
      (detectStep_label_of_no_match h (hall col (List.mem_cons_self _ _)))
      (fun x hx => hall x (List.mem_cons_of_mem _ hx))

theorem detectFinal_label (m : ColumnMapping) : (detectFinal m).label = m.label := by
  unfold detectFinal
  split_ifs <;> rfl

theorem detect_columns_label_isSome (c : String) (cs : List String) :
    (detect_columns (c :: cs)).label.isSome := by
  unfold detect_columns
  rw [detectFinal_label]
  by_cases h : ((c :: cs).foldl detectStep ⟨none, none, none, none⟩).label = none
  · simp only [List.foldl_cons] at h
    simp [detectFallback, h]
  · simp only [List.foldl_cons] at h
    simp [detectFallback, h, Option.isSome_iff_ne_none]

theorem detectFinal_description_ne {m : ColumnMapping} (h : m.label.isSome) :
    (detectFinal m).description ≠ (detectFinal m).label := by
  unfold detectFinal
  split_ifs with heq
  · show (none : Option String) ≠ m.label
    intro hcon
    rw [← hcon] at h
    simp at h
  · exact fun hcon => heq hcon.symm

/-- C5: for every table with at least one column, `detect_columns` assigns
a label column; when no column name matches a label synonym, the label is
the first column; and the returned description is never equal to the
returned label. -/
theorem C5_label_fallback (c : String) (cs : List String) :
    (detect_columns (c :: cs)).label.isSome
    ∧ (detect_columns (c :: cs)).description ≠ (detect_columns (c :: cs)).label
    ∧ ((∀ x ∈ c :: cs, pyStrip (pyLower x) ∉ LABEL_COLUMNS) →
        (detect_columns (c :: cs)).label = some c) := by
  refine ⟨detect_columns_label_isSome c cs, ?_, ?_⟩
  · have hsome := detect_columns_label_isSome c cs
    unfold detect_columns at hsome ⊢
    rw [detectFinal_label] at hsome
    exact detectFinal_description_ne hsome
  · intro hnone
    unfold detect_columns
    rw [detectFinal_label]
    unfold detectFallback
    rw [if_pos ⟨foldl_detectStep_label_of_no_match _ _ rfl hnone, by simp⟩]
    rfl

/-- Witness for C5: columns `["qty", "price"]` match no label synonym, so
the first column `"qty"` becomes the label. -/
theorem C5_label_fallback_witness :
    (detect_columns ["qty", "price"]).label.isSome
    ∧ (detect_columns ["qty", "price"]).description ≠ (detect_columns ["qty", "price"]).label
    ∧ (detect_columns ["qty", "price"]).label = some "qty" := by
  obtain ⟨h1, h2, h3⟩ := C5_label_fallback "qty" ["price"]
  exact ⟨h1, h2, h3 (by decide)⟩

/-! ### Lemmas about the metadata dict -/

theorem mdInsert_alookup (md : MetaMap) (k : String) (v : CellVal) (a : String) :
    alookup (mdInsert md k v) a = if k = a then some v else alookup md a := by
  induction md with
  | nil => rfl
  | cons p t ih =>
    obtain ⟨k', v'⟩ := p
    by_cases hk : k' = k
    · subst hk
      simp only [mdInsert, if_pos rfl]
      by_cases ha : k' = a
      · subst ha; simp [alookup]
      · simp [alookup, ha]
    · simp only [mdInsert, if_neg hk]
      by_cases ha : k' = a
      · subst ha
        have hka : ¬(k = k') := fun hc => hk hc.symm
        simp [alookup, hka]
      · simp [alookup, ha, ih]

theorem mdInsert_ne_nil (md : MetaMap) (k : String) (v : CellVal) :
    mdInsert md k v ≠ [] := by
  cases md with
  | nil => simp [mdInsert]
  | cons p t =>
    obtain ⟨k', v'⟩ := p
    by_cases hk : k' = k <;> simp [mdInsert, hk]

/-- Every value in the metadata built by the unmapped-column loop is the
numeric-normalized cell of the row in the same-named column. -/
theorem rowMetadata_lookup (cols : List String) (row : DRow) (lc dc : Option String) :
    ∀ k v, alookup (rowMetadata cols row lc dc) k = some v →
      ∃ cell, dfGet row k = some cell ∧ v = normNum cell := by
  unfold rowMetadata
  suffices hgen : ∀ (l : List String) (md : MetaMap),
      (∀ k v, alookup md k = some v → ∃ cell, dfGet row k = some cell ∧ v = normNum cell) →
      ∀ k v,
        alookup
          (l.foldl
            (fun md col =>
              if lc = some col ∨ dc = some col then md
              else
                match dfGet row col with
                | none => md
                | some v => mdInsert md col (normNum v)) md) k = some v →
        ∃ cell, dfGet row k = some cell ∧ v = normNum cell by
    exact hgen cols [] (fun k v h => by simp [alookup] at h)
  intro l
  induction l with
  | nil => intro md hmd; exact hmd
  | cons col t ih =>
    intro md hmd
    simp only [List.foldl_cons]
    refine ih _ ?_
    by_cases hskip : lc = some col ∨ dc = some col
    · rw [if_pos hskip]; exact hmd
    · rw [if_neg hskip]
      cases hcell : dfGet row col with
      | none => exact hmd
      | some cell =>
        intro k v hlk
        rw [mdInsert_alookup] at hlk
        by_cases hk : col = k
        · subst hk
          rw [if_pos rfl] at hlk
          exact ⟨cell, hcell, (Option.some.injEq _ _ ▸ hlk).symm⟩
        · rw [if_neg hk] at hlk
          exact hmd k v hlk

/-- The diameter fold-in (line 169) stores the raw cell value under the
key `"diameter"` of a kept row's metadata. -/
theorem processRow_diameter {cols : List String} {m : ColumnMapping} {row : DRow}
    {r0 : RowRecord} (hp : processRow cols m row = some r0)
    {dc : String} (hdc : m.diameter = some dc) (hne : dc ≠ "")
    {v : CellVal} (hv : dfGet row dc = some v) :
    ∃ md, r0.metadata = some md ∧ alookup md "diameter" = some v := by
  unfold processRow at hp
  rw [hdc] at hp
  simp only [if_pos hne, hv] at hp
  split at hp
  · exact absurd hp (by simp)
  · rw [Option.some.injEq] at hp
    subst hp
    refine ⟨mdInsert (rowMetadata cols row m.label m.description) "diameter" v, ?_, ?_⟩
    · simp only []
      rw [if_pos (mdInsert_ne_nil _ _ _)]
    · rw [mdInsert_alookup, if_pos rfl]

/-- C7 (amended): every record produced by `normalize_items` comes from a
row of the table, and whenever a diameter column `dc` was detected and
that row's `dc` cell is non-null, the record's metadata holds the key
`"diameter"` with the raw cell value — regardless of whether `dc` also
matched another role.  (The original claim without the non-null condition
fails: a row whose diameter cell is null gets no `"diameter"` key, see the
counterexample.) -/
theorem C7_diameter_metadata (df : DFrame) (m : ColumnMapping) (r0 : RowRecord)
    (h : r0 ∈ normalize_items df m) (dc : String) (hdc : m.diameter = some dc)
    (hne : dc ≠ "") :
    ∃ row ∈ df.rows, processRow df.cols m row = some r0 ∧
      ∀ v, dfGet row dc = some v →
        ∃ md, r0.metadata = some md ∧ alookup md "diameter" = some v := by
  unfold normalize_items at h
  obtain ⟨row, hrow, hp⟩ := List.mem_filterMap.mp h
  exact ⟨row, hrow, hp, fun v hv => processRow_diameter hp hdc hne hv⟩

/-- C7 counterexample: the diameter column `"size"` is detected, but the
(only) normalized record of a table whose row has a null `"size"` cell has
no metadata at all — in particular no `"diameter"` key — refuting the
unconditional claim. -/
theorem C7_counterexample :
    (detect_columns ["item", "size"]).diameter = some "size"
    ∧ normalize_items ⟨["item", "size"], [[("item", .str "pipe")]]⟩
        (detect_columns ["item", "size"]) = [{ original_label := some "pipe" }]
    ∧ ({ original_label := some "pipe" } : RowRecord).metadata = none :=
  ⟨by decide, by decide, by decide⟩

/-- Witness for C7: a concrete table with a detected `"size"` diameter
column and a non-null cell `8`; the record's metadata holds
`"diameter" ↦ 8`. -/
theorem C7_diameter_metadata_witness :
    ∃ row ∈ (⟨["item", "size"], [[("item", CellVal.str "pipe"), ("size", CellVal.int 8)]]⟩ :
        DFrame).rows,
      processRow ["item", "size"] (detect_columns ["item", "size"]) row =
        some { original_label := some "pipe",
               metadata := some [("size", CellVal.int 8), ("diameter", CellVal.int 8)] } ∧
      ∀ v, dfGet row "size" = some v →
        ∃ md,
          ({ original_label := some "pipe",
             metadata := some [("size", CellVal.int 8), ("diameter", CellVal.int 8)] } :
              RowRecord).metadata = some md ∧
          alookup md "diameter" = some v := by
  exact C7_diameter_metadata
    ⟨["item", "size"], [[("item", CellVal.str "pipe"), ("size", CellVal.int 8)]]⟩
    (detect_columns ["item", "size"])
    { original_label := some "pipe",
      metadata := some [("size", CellVal.int 8), ("diameter", CellVal.int 8)] }
    (by decide) "size" (by decide) (by decide)

/-- C6 (amended): a mathematically integral float is stored as the
corresponding integer and a non-integral float is stored unchanged, for
every cell stored by the unmapped-column metadata loop of
`normalize_items`; the diameter fold-in, by contrast, stores the raw
(unnormalized) cell value.  (The original claim over *every* stored cell
fails on the diameter fold-in, see the counterexample.) -/
theorem C6_numeric_normalization :
    (∀ q : Rat, q.den = 1 → normNum (.float q) = .int q.num)
    ∧ (∀ q : Rat, q.den ≠ 1 → normNum (.float q) = .float q)
    ∧ (∀ (cols : List String) (row : DRow) (lc dc : Option String) (k : String) (v : CellVal),
        alookup (rowMetadata cols row lc dc) k = some v →
        ∃ cell, dfGet row k = some cell ∧ v = normNum cell)
    ∧ (∀ (cols : List String) (m : ColumnMapping) (row : DRow) (r0 : RowRecord)
        (dc : String) (v : CellVal),
        processRow cols m row = some r0 → m.diameter = some dc → dc ≠ "" →
        dfGet row dc = some v →
        ∃ md, r0.metadata = some md ∧ alookup md "diameter" = some v) := by
  refine ⟨?_, ?_, rowMetadata_lookup, ?_⟩
  · intro q hq; simp [normNum, hq]
  · intro q hq; simp [normNum, hq]
  · intro cols m row r0 dc v hp hdc hne hv
    exact processRow_diameter hp hdc hne hv

/-- C6 counterexample: the row cell `12.0` of the detected diameter column
`"diameter"` is stored into metadata as the raw float `12.0`, not as the
integer `12`, because the fold-in bypasses the numeric normalization. -/
theorem C6_counterexample :
    normalize_items
        ⟨["item", "diameter"], [[("item", .str "pipe"), ("diameter", .float 12)]]⟩
        (detect_columns ["item", "diameter"]) =
      [{ original_label := some "pipe",
         metadata := some [("diameter", CellVal.float 12)] }]
    ∧ (12 : Rat).den = 1
    ∧ CellVal.float 12 ≠ CellVal.int 12 :=
  ⟨by decide, by decide, by decide⟩

/-- Witness for C6: `12.0` normalizes to the integer `12`, `12.5` stays
`12.5`, and on a concrete one-column table the loop-stored value is the
normalized cell. -/
theorem C6_numeric_normalization_witness :
    normNum (.float 12) = .int (12 : Rat).num
    ∧ normNum (.float ⟨25, 2, by decide, by decide⟩) =
        .float ⟨25, 2, by decide, by decide⟩
    ∧ (∃ cell, dfGet [("a", CellVal.float 12)] "a" = some cell ∧
        CellVal.int 12 = normNum cell) := by
  obtain ⟨h1, h2, h3, _⟩ := C6_numeric_normalization
  refine ⟨h1 12 (by decide), h2 ⟨25, 2, by decide, by decide⟩ (by decide), ?_⟩
  exact h3 ["a"] [("a", CellVal.float 12)] none none "a" (CellVal.int 12) (by decide)

/-! ### `LLMService` (`src/services/llm.py`) -/

/-- The `analysis_details` object synthesized by `_generate_summary`
(lines 198-206). -/
structure AnalysisDetails where
  total_items : Nat := 0
  divisions_found : List String := []
  applications_breakdown : List (String × Nat) := []
  recommendations : List String := []
deriving DecidableEq, Repr

/-- The top-level JSON object of a model response (after `json.loads`);
every key may be absent. -/
structure LLMJson where
  items : Option (List ModelItem) := none
  analysis_summary : Option String := none
  analysis_details : Option AnalysisDetails := none
deriving DecidableEq, Repr

/-- The outcome of one external chat-completion call:
`ok (some r)` — the call succeeded and the content parsed as JSON `r`;
`ok none` — the call succeeded but `json.loads` raised `JSONDecodeError`;
`exn msg` — the call itself raised (timeout, quota, network, ...). -/
inductive LLMCallResult where
  | ok (parsed : Option LLMJson)
  | exn (msg : String)
deriving DecidableEq, Repr

/-- `LLMAPIError(provider, error_code, error_message)`
(`src/core/errors.py`, lines 225-238). -/
structure LLMAPIError where
  provider : String
  error_code : String
  error_message : String
deriving DecidableEq, Repr

/-- `settings.LLM_PROVIDER` default (`src/core/config.py`, line 34). -/
def LLM_PROVIDER : String := "openai"

/-- `LLMService._analyze_batch` (lines 115-186), viewed from the parsed
response: a successful parse has a missing top-level `items` key defaulted
to `[]` (lines 159-160); a `json.JSONDecodeError` becomes
`LLMAPIError(code=INVALID_JSON)` (lines 173-179); any other exception
becomes `LLMAPIError(code=API_ERROR)` (lines 180-186). -/
def _analyze_batch (resp : LLMCallResult) : Except LLMAPIError LLMJson :=
  match resp with
  | .ok (some r) => .ok { r with items := some (r.items.getD []) }
  | .ok none =>
    .error ⟨LLM_PROVIDER, "INVALID_JSON", "LLM returned invalid JSON"⟩
  | .exn msg => .error ⟨LLM_PROVIDER, "API_ERROR", msg⟩

/-- Line 195: `item.get("application", "other") or "other"`. -/
def resolvedApp (m : ModelItem) : String :=
  match m.application with
  | none => "other"
  | some s => if s = "" then "other" else s

/-- Line 192: `list(set(... for item in all_items if item.get("csi_division")))`
— the distinct non-empty `csi_division` values (a set; we fix the order by
`dedup`, and only ever reason about membership). -/
def divisionFilter (m : ModelItem) : Option String :=
  match m.csi_division with
  | some d => if d ≠ "" then some d else none
  | none => none

def divisionsFound (items : List ModelItem) : List String :=
  (items.filterMap divisionFilter).dedup

/-- `apps[app] = apps.get(app, 0) + 1`: bump a counter dict. -/
def bump : List (String × Nat) → String → List (String × Nat)
  | [], k => [(k, 1)]
  | (k', v) :: t, k => if k' = k then (k', v + 1) :: t else (k', v) :: bump t k

/-- Lines 193-196: items counted per resolved application value. -/
def appsBreakdown (items : List ModelItem) : List (String × Nat) :=
  items.foldl (fun m it => bump m (resolvedApp it)) []

/-- `LLMService._generate_summary` (lines 188-206). -/
def _generate_summary (all_items : List ModelItem) (ctype : String) :
    String × AnalysisDetails :=
  ("Analyzed " ++ natRepr all_items.length ++ " " ++ ctype ++ " items across " ++
      natRepr (divisionsFound all_items).length ++ " CSI divisions.",
    { total_items := all_items.length
      divisions_found := divisionsFound all_items
      applications_breakdown := appsBreakdown all_items
      recommendations := [] })

/-- `items[i:i+100]` for `i in range(0, len(items), 100)`: the consecutive
batches of (at most) `n` rows. -/
def batchSlices {α : Type} (n : Nat) (l : List α) : List (List α) :=
  (List.range ((l.length + n - 1) / n)).map (fun i => (l.drop (i * n)).take n)

/-- The `for` loop of lines 100-104: run all batches in order, concatenate
the `result.get("items", [])` lists, propagate the first exception. -/
def analyzeBatches (call : List RowRecord → LLMCallResult) :
    List (List RowRecord) → List ModelItem → Except LLMAPIError (List ModelItem)
  | [], acc => .ok acc
  | b :: t, acc =>
    match _analyze_batch (call b) with
    | .error e => .error e
    | .ok r => analyzeBatches call t (acc ++ r.items.getD [])

/-- `LLMService.analyze_and_code_items` (lines 83-113), parameterized by
the external per-batch call.  At most 100 rows: one request, returned
as-is.  Otherwise: batches of 100, concatenated items, and a rolled-up
summary computed by `_generate_summary` from the concatenated items
(`_generate_summary` always yields both keys, so the `.get` defaults of
lines 111-112 are dead). -/
def analyze_and_code_items (call : List RowRecord → LLMCallResult)
    (items : List RowRecord) (ctype : String) : Except LLMAPIError LLMJson :=
  if items.length ≤ 100 then _analyze_batch (call items)
  else
    match analyzeBatches call (batchSlices 100 items) [] with
    | .error e => .error e
    | .ok allItems =>
      .ok { items := some allItems
            analysis_summary := some (_generate_summary allItems ctype).1
            analysis_details := some (_generate_summary allItems ctype).2 }

/-- The item list one batch contributes (`result.get("items", [])`),
empty when the batch failed (in which case the whole call fails anyway). -/
def batchItems (call : List RowRecord → LLMCallResult) (b : List RowRecord) :
    List ModelItem :=
  match _analyze_batch (call b) with
  | .ok r => r.items.getD []
  | .error _ => []

/-! ### Lemmas about the rolled-up summary -/

theorem bump_alookup_self (m : List (String × Nat)) (k : String) :
    alookup (bump m k) k = some ((alookup m k).getD 0 + 1) := by
  induction m with
  | nil => simp [bump, alookup]
  | cons p t ih =>
    obtain ⟨k', v⟩ := p
    by_cases hk : k' = k
    · subst hk; simp [bump, alookup]
    · simp [bump, alookup, hk, ih]

theorem bump_alookup_other (m : List (String × Nat)) (k a : String) (h : a ≠ k) :
    alookup (bump m k) a = alookup m a := by
  have hka : ¬(k = a) := fun hc => h hc.symm
  induction m with
  | nil => simp [bump, alookup, hka]
  | cons p t ih =>
    obtain ⟨k', v⟩ := p
    by_cases hk : k' = k
    · subst hk
      simp [bump, alookup, hka]
    · simp only [bump, if_neg hk]
      by_cases ha : k' = a
      · subst ha
        simp [alookup]
      · simp [alookup, ha, ih]

theorem appsBreakdown_count (items : List ModelItem) (a : String) :
    (alookup (appsBreakdown items) a).getD 0 = (items.map resolvedApp).count a := by
  unfold appsBreakdown
  suffices hgen : ∀ (l : List ModelItem) (m : List (String × Nat)),
      (alookup (l.foldl (fun m it => bump m (resolvedApp it)) m) a).getD 0 =
        (alookup m a).getD 0 + (l.map resolvedApp).count a by
    simpa [alookup] using hgen items []
  intro l
  induction l with
  | nil => intro m; simp
  | cons it t ih =>
    intro m
    simp only [List.foldl_cons, List.map_cons, ih]
    by_cases hit : resolvedApp it = a
    · rw [hit, bump_alookup_self]
      simp only [Option.getD_some, List.count_cons]
      simp
      omega
    · rw [bump_alookup_other _ _ _ (fun hc => hit hc.symm)]
      have h1 : ¬(resolvedApp it = a) := hit
      have h2 : ¬(a = resolvedApp it) := fun hc => hit hc.symm
      simp [List.count_cons, h1, h2]

theorem divisionFilter_eq_some {m : ModelItem} {d : String} :
    divisionFilter m = some d ↔ m.csi_division = some d ∧ d ≠ "" := by
  unfold divisionFilter
  cases hdiv : m.csi_division with
  | none => simp
  | some d' =>
    by_cases hne : d' = ""
    · subst hne
      constructor
      · intro hf
        exact absurd hf (by simp)
      · rintro ⟨hd, hne2⟩
        rw [Option.some.injEq] at hd
        exact absurd hd.symm hne2
    · simp only [ne_eq, hne, not_false_eq_true, if_true, Option.some.injEq]
      constructor
      · rintro rfl; exact ⟨rfl, hne⟩
      · rintro ⟨hd, _⟩; exact hd

theorem divisionsFound_mem (items : List ModelItem) (d : String) :
    d ∈ divisionsFound items ↔ ∃ m ∈ items, m.csi_division = some d ∧ d ≠ "" := by
  unfold divisionsFound
  rw [List.mem_dedup, List.mem_filterMap]
  constructor
  · rintro ⟨m, hm, hf⟩
    exact ⟨m, hm, divisionFilter_eq_some.mp hf⟩
  · rintro ⟨m, hm, hdiv, hne⟩
    exact ⟨m, hm, divisionFilter_eq_some.mpr ⟨hdiv, hne⟩⟩

/-- When every batch succeeds, the loop returns the concatenation of the
per-batch item lists, in batch order. -/
theorem analyzeBatches_ok (call : List RowRecord → LLMCallResult) :
    ∀ (l : List (List RowRecord)) (acc : List ModelItem),
      (∀ b ∈ l, ∃ r, _analyze_batch (call b) = .ok r) →
      analyzeBatches call l acc = .ok (acc ++ (l.map (batchItems call)).flatten) := by
  intro l
  induction l with
  | nil => intro acc _; simp [analyzeBatches]
  | cons b t ih =>
    intro acc hok
    obtain ⟨r, hr⟩ := hok b (List.mem_cons_self _ _)
    have hbi : batchItems call b = r.items.getD [] := by
      unfold batchItems; rw [hr]
    simp only [analyzeBatches, hr]
    rw [ih (acc ++ r.items.getD []) (fun x hx => hok x (List.mem_cons_of_mem _ hx))]
    simp [hbi]

/-! ### Claim theorems about `analyze_and_code_items` and `_analyze_batch` -/

/-- C3: a list of at most 100 rows is analyzed with a single request whose
response is returned as-is; a longer list is split into consecutive
batches of 100 (last possibly shorter), and — when every batch succeeds —
the call returns the concatenation of the per-batch item lists in batch
order, with a summary computed only from the concatenated items:
`total_items` is the number of returned items, `divisions_found` is the
set of distinct non-empty `csi_division` values, and
`applications_breakdown` counts items per application value (absent/empty
defaulting to `"other"`).  Nothing of any batch's self-reported summary
appears in the result. -/
theorem C3_batch_summary_independence (call : List RowRecord → LLMCallResult)
    (rows : List RowRecord) (ctype : String) :
    (rows.length ≤ 100 →
      analyze_and_code_items call rows ctype = _analyze_batch (call rows))
    ∧ (rows.length > 100 →
      (∀ b ∈ batchSlices 100 rows, ∃ r, _analyze_batch (call b) = .ok r) →
      analyze_and_code_items call rows ctype =
        .ok { items := some (((batchSlices 100 rows).map (batchItems call)).flatten)
              analysis_summary := some
                (_generate_summary (((batchSlices 100 rows).map (batchItems call)).flatten)
                  ctype).1
              analysis_details := some
                (_generate_summary (((batchSlices 100 rows).map (batchItems call)).flatten)
                  ctype).2 }
      ∧ (_generate_summary (((batchSlices 100 rows).map (batchItems call)).flatten)
            ctype).2.total_items =
          (((batchSlices 100 rows).map (batchItems call)).flatten).length
      ∧ (∀ d,
          d ∈ (_generate_summary (((batchSlices 100 rows).map (batchItems call)).flatten)
                ctype).2.divisions_found ↔
            ∃ m ∈ ((batchSlices 100 rows).map (batchItems call)).flatten,
              m.csi_division = some d ∧ d ≠ "")
      ∧ (∀ a,
          (alookup
            (_generate_summary (((batchSlices 100 rows).map (batchItems call)).flatten)
                ctype).2.applications_breakdown a).getD 0 =
            ((((batchSlices 100 rows).map (batchItems call)).flatten).map resolvedApp).count a)) := by
  constructor
  · intro hle
    unfold analyze_and_code_items
    rw [if_pos hle]
  · intro hgt hok
    refine ⟨?_, rfl, divisionsFound_mem _, appsBreakdown_count _⟩
    unfold analyze_and_code_items
    rw [if_neg (by omega)]
    rw [analyzeBatches_ok call (batchSlices 100 rows) [] hok]
    rfl

/-- Witness for C3: 101 empty rows (2 batches) with an oracle returning an
empty item list per batch, and a 1-row list analyzed in a single request. -/
theorem C3_batch_summary_independence_witness :
    (List.replicate 101 ({} : RowRecord)).length > 100
    ∧ analyze_and_code_items (fun _ => .ok (some {}))
        (List.replicate 101 ({} : RowRecord)) "material" =
      .ok { items := some []
            analysis_summary := some "Analyzed 0 material items across 0 CSI divisions."
            analysis_details := some { total_items := 0 } }
    ∧ analyze_and_code_items (fun _ => .ok (some {})) [({} : RowRecord)] "material" =
      _analyze_batch ((fun _ => .ok (some {})) [({} : RowRecord)]) := by
  have h := C3_batch_summary_independence (fun _ => .ok (some {}))
    (List.replicate 101 ({} : RowRecord)) "material"
  have h1 := C3_batch_summary_independence (fun _ => .ok (some {}))
    [({} : RowRecord)] "material"
  refine ⟨by simp, ?_, h1.1 (by simp)⟩
  have h2 := (h.2 (by simp) (fun b _ => ⟨{ items := some [] }, rfl⟩)).1
  rw [h2]
  rfl

/-- C9: a response that parses as JSON but lacks the top-level `items` key
is returned with `items` defaulted to the empty list rather than failing;
a response that does not parse raises `LLMAPIError` with error code
`INVALID_JSON` rather than returning. -/
theorem C9_items_default_invalid_json :
    (∀ r : LLMJson, r.items = none →
      _analyze_batch (.ok (some r)) = .ok { r with items := some [] })
    ∧ (∃ e, _analyze_batch (.ok none) = .error e ∧ e.error_code = "INVALID_JSON"
        ∧ ∀ r, _analyze_batch (.ok none) ≠ .ok r) := by
  constructor
  · intro r h
    have hred : _analyze_batch (.ok (some r)) =
        .ok { r with items := some (r.items.getD []) } := rfl
    rw [hred, h]
    rfl
  · exact ⟨⟨LLM_PROVIDER, "INVALID_JSON", "LLM returned invalid JSON"⟩, rfl, rfl,
      fun r h => Except.noConfusion h⟩

/-- Witness for C9: the parsed-but-itemless response `{}` comes back as
`{items := []}`. -/
theorem C9_items_default_invalid_json_witness :
    _analyze_batch (.ok (some {})) = .ok { items := some [] }
    ∧ (∃ e, _analyze_batch (.ok none) = .error e ∧ e.error_code = "INVALID_JSON") := by
  obtain ⟨h1, e, he, hc, _⟩ := C9_items_default_invalid_json
  exact ⟨h1 {} rfl, e, he, hc⟩

/-! ### `CodebookProcessor.process_upload`
(`src/services/codebook_processor.py`, lines 33-136)

`process_upload` is a straight-line sequence of external calls (job
updates, row-store writes, the LLM call) wrapped in `try/except`: the
first call that raises aborts the rest and the handler marks the job
`failed` with the exception's message.  We model a run as the list of
externally visible events, driven by an environment `env` that says which
call (by its position in the sequence) raises with which message; the
produced event trace is the call prefix before the failure followed by
the handler's `failed` update, or the full call list when nothing raises.
The LLM result (`llm_result["items"]`) is a parameter: events after the
LLM call depend on it, and they are only reached when it succeeded. -/

/-- One externally visible effect of `process_upload`.  `updateJob`
carries exactly the keyword arguments passed to
`JobRepository.update_job` (absent = not written). -/
inductive Ev where
  | updateJob (status : Option String) (progress : Option Nat)
      (error : Option String) (hasResult : Bool)
  | createCodebook
  | setJobCodebook
  | createVersion
  | llmAnalyze
  | bulkInsert (n : Nat)
  | versionAnalysisUpdate
  | setCompletedAt
deriving DecidableEq, Repr

/-- The calls of a fully successful run, in source order (lines 46-126).
The bulk insert happens only when `db_items` is non-empty (line 98). -/
def callsList (llmItems : List ModelItem) (rows : List RowRecord)
    (vId cId : String) : List Ev :=
  [Ev.updateJob (some "running") (some 5) none false,
   Ev.createCodebook,
   Ev.updateJob none (some 15) none false,
   Ev.setJobCodebook,
   Ev.createVersion,
   Ev.updateJob none (some 25) none false,
   Ev.updateJob none (some 30) none false,
   Ev.llmAnalyze,
   Ev.updateJob none (some 70) none false] ++
  (if _build_item_records llmItems rows vId cId ≠ [] then
    [Ev.bulkInsert (_build_item_records llmItems rows vId cId).length]
  else []) ++
  [Ev.updateJob none (some 85) none false,
   Ev.versionAnalysisUpdate,
   Ev.updateJob (some "completed") (some 100) none true,
   Ev.setCompletedAt]

/-- The first call that raises: the least index `k` with `env k = some
msg`, searched over the run's call list. -/
def firstFail (env : Nat → Option String) (n : Nat) : Option (Nat × String) :=
  (List.range n).findSome? (fun k => (env k).map (fun msg => (k, msg)))

/-- `process_upload` as its event trace: all calls up to (excluding) the
first failing one, then the `except` handler's
`update_job(status="failed", error=str(e))` (lines 130-136); the full
call list when no call raises. -/
def process_upload (env : Nat → Option String) (llmItems : List ModelItem)
    (rows : List RowRecord) (vId cId : String) : List Ev :=
  match firstFail env (callsList llmItems rows vId cId).length with
  | none => callsList llmItems rows vId cId
  | some (k, msg) =>
    (callsList llmItems rows vId cId).take k ++
      [Ev.updateJob (some "failed") none (some msg) false]

/-- The job record as affected by a trace (a job starts `pending` with
progress 0 and no error; `update_job` writes only the provided fields). -/
structure JobState where
  status : String
  progress : Nat
  error : Option String
  hasResult : Bool
  insertedItems : Nat
deriving DecidableEq, Repr

def initJob : JobState := ⟨"pending", 0, none, false, 0⟩

def applyEv (s : JobState) : Ev → JobState
  | .updateJob st p e r =>
    ⟨st.getD s.status, p.getD s.progress,
      (if e.isSome then e else s.error), s.hasResult || r, s.insertedItems⟩
  | .bulkInsert n => ⟨s.status, s.progress, s.error, s.hasResult, s.insertedItems + n⟩
  | _ => s

def runJob (evs : List Ev) : JobState := evs.foldl applyEv initJob

/-- The progress values written to the job, in order. -/
def progressWrites (evs : List Ev) : List Nat :=
  evs.filterMap (fun ev =>
    match ev with
    | .updateJob _ p _ _ => p
    | _ => none)

/-- The status values written to the job, in order. -/
def statusWrites (evs : List Ev) : List String :=
  evs.filterMap (fun ev =>
    match ev with
    | .updateJob st _ _ _ => st
    | _ => none)

/-- A fold over events without a `bulkInsert` leaves the inserted-item
count unchanged. -/
theorem foldl_insertedItems {l : List Ev} (h : ∀ n, Ev.bulkInsert n ∉ l) :
    ∀ s : JobState, (l.foldl applyEv s).insertedItems = s.insertedItems := by
  induction l with
  | nil => intro s; rfl
  | cons e t ih =>
    intro s
    rw [List.foldl_cons]
    rw [ih (fun n hn => h n (List.mem_cons_of_mem _ hn))]
    cases e with
    | bulkInsert n => exact absurd (List.mem_cons_self _ _) (h n)
    | updateJob st p er r => rfl
    | createCodebook => rfl
    | setJobCodebook => rfl
    | createVersion => rfl
    | llmAnalyze => rfl
    | versionAnalysisUpdate => rfl
    | setCompletedAt => rfl

/-- C8: in a run in which no call raises, the progress values written to
the job are exactly 5, 15, 25, 30, 70, 85, 100 in that order (hence
non-decreasing), progress 30 is written immediately before the LLM call
and 70 immediately after it, and the job status goes
pending → running → completed. -/
theorem C8_progress_sequence (env : Nat → Option String)
    (llmItems : List ModelItem) (rows : List RowRecord) (vId cId : String)
    (h : firstFail env (callsList llmItems rows vId cId).length = none) :
    progressWrites (process_upload env llmItems rows vId cId) =
      [5, 15, 25, 30, 70, 85, 100]
    ∧ List.Chain' (· ≤ ·) (progressWrites (process_upload env llmItems rows vId cId))
    ∧ initJob.status :: statusWrites (process_upload env llmItems rows vId cId) =
      ["pending", "running", "completed"]
    ∧ (∃ pre post, process_upload env llmItems rows vId cId =
        pre ++ [Ev.updateJob none (some 30) none false, Ev.llmAnalyze,
                Ev.updateJob none (some 70) none false] ++ post) := by
  have htrace : process_upload env llmItems rows vId cId =
      callsList llmItems rows vId cId := by
    unfold process_upload
    rw [h]
  rw [htrace]
  by_cases hd : _build_item_records llmItems rows vId cId = []
  · refine ⟨?_, ?_, ?_,
      ⟨[Ev.updateJob (some "running") (some 5) none false, Ev.createCodebook,
        Ev.updateJob none (some 15) none false, Ev.setJobCodebook, Ev.createVersion,
        Ev.updateJob none (some 25) none false],
       [Ev.updateJob none (some 85) none false, Ev.versionAnalysisUpdate,
        Ev.updateJob (some "completed") (some 100) none true, Ev.setCompletedAt], ?_⟩⟩ <;>
      simp [callsList, hd, progressWrites, statusWrites, initJob]
  · refine ⟨?_, ?_, ?_,
      ⟨[Ev.updateJob (some "running") (some 5) none false, Ev.createCodebook,
        Ev.updateJob none (some 15) none false, Ev.setJobCodebook, Ev.createVersion,
        Ev.updateJob none (some 25) none false],
       [Ev.bulkInsert (_build_item_records llmItems rows vId cId).length,
        Ev.updateJob none (some 85) none false, Ev.versionAnalysisUpdate,
        Ev.updateJob (some "completed") (some 100) none true, Ev.setCompletedAt], ?_⟩⟩ <;>
      simp [callsList, hd, progressWrites, statusWrites, initJob]

/-- Witness for C8: a run with no failures (empty item list). -/
theorem C8_progress_sequence_witness :
    progressWrites (process_upload (fun _ => none) [] [] "v" "c") =
      [5, 15, 25, 30, 70, 85, 100]
    ∧ initJob.status :: statusWrites (process_upload (fun _ => none) [] [] "v" "c") =
      ["pending", "running", "completed"] := by
  obtain ⟨h1, _, h3, _⟩ := C8_progress_sequence (fun _ => none) [] [] "v" "c" (by decide)
  exact ⟨h1, h3⟩

/-- C2 (amended): when the `k`-th call raises with message `msg`, all
remaining steps are skipped and the handler marks the job `failed` with
`error = msg`; if the failure happens at or before the bulk-insert
position (index 9) — in particular when the LLM analysis call (index 7)
raises — no codebook items have been persisted.  (The original claim that
*no* exception ever leaves persisted items fails: an exception on a step
after the bulk insert, e.g. the progress-85 update, leaves the inserted
items in place with a failed job, see the counterexample.) -/
theorem C2_failure_capture (env : Nat → Option String)
    (llmItems : List ModelItem) (rows : List RowRecord) (vId cId : String)
    (k : Nat) (msg : String)
    (h : firstFail env (callsList llmItems rows vId cId).length = some (k, msg)) :
    process_upload env llmItems rows vId cId =
      (callsList llmItems rows vId cId).take k ++
        [Ev.updateJob (some "failed") none (some msg) false]
    ∧ (runJob (process_upload env llmItems rows vId cId)).status = "failed"
    ∧ (runJob (process_upload env llmItems rows vId cId)).error = some msg
    ∧ (k ≤ 9 →
        (runJob (process_upload env llmItems rows vId cId)).insertedItems = 0) := by
  have htrace : process_upload env llmItems rows vId cId =
      (callsList llmItems rows vId cId).take k ++
        [Ev.updateJob (some "failed") none (some msg) false] := by
    unfold process_upload
    rw [h]
  rw [htrace]
  have hrun : runJob ((callsList llmItems rows vId cId).take k ++
      [Ev.updateJob (some "failed") none (some msg) false]) =
      applyEv (((callsList llmItems rows vId cId).take k).foldl applyEv initJob)
        (Ev.updateJob (some "failed") none (some msg) false) := by
    unfold runJob
    rw [List.foldl_append]
    rfl
  rw [hrun]
  refine ⟨rfl, rfl, rfl, ?_⟩
  intro hk
  have hnobulk : ∀ n, Ev.bulkInsert n ∉ (callsList llmItems rows vId cId).take k := by
    intro n hn
    unfold callsList at hn
    rw [List.take_append_eq_append_take, List.take_append_eq_append_take] at hn
    have hL1 : ([Ev.updateJob (some "running") (some 5) none false,
        Ev.createCodebook,
        Ev.updateJob none (some 15) none false,
        Ev.setJobCodebook,
        Ev.createVersion,
        Ev.updateJob none (some 25) none false,
        Ev.updateJob none (some 30) none false,
        Ev.llmAnalyze,
        Ev.updateJob none (some 70) none false] : List Ev).length = 9 := rfl
    rw [List.length_append] at hn
    simp only [hL1] at hn
    have hz : k - 9 = 0 := by omega
    have hz2 : k - (9 + (if _build_item_records llmItems rows vId cId ≠ [] then
        [Ev.bulkInsert (_build_item_records llmItems rows vId cId).length]
      else []).length) = 0 := by omega
    rw [hz, hz2] at hn
    simp only [List.take_zero, List.append_nil] at hn
    have h9 : ∀ m, Ev.bulkInsert m ∉
        ([Ev.updateJob (some "running") (some 5) none false,
          Ev.createCodebook,
          Ev.updateJob none (some 15) none false,
          Ev.setJobCodebook,
          Ev.createVersion,
          Ev.updateJob none (some 25) none false,
          Ev.updateJob none (some 30) none false,
          Ev.llmAnalyze,
          Ev.updateJob none (some 70) none false] : List Ev) := by
      intro m hm
      simp at hm
    exact h9 n (List.take_subset _ _ hn)
  show (((callsList llmItems rows vId cId).take k).foldl applyEv initJob).insertedItems = 0
  rw [foldl_insertedItems hnobulk]
  rfl

/-- C2 counterexample: one model item, failure injected at call index 10
(the progress-85 update, which comes after the bulk insert).  The job ends
`failed` with the exception message, but one codebook item has been
persisted — refuting the claim that a failed job never has persisted
items. -/
theorem C2_counterexample :
    (runJob (process_upload (fun j => if j = 10 then some "boom" else none)
        [{ code := some "A" }] [] "v" "c")).status = "failed"
    ∧ (runJob (process_upload (fun j => if j = 10 then some "boom" else none)
        [{ code := some "A" }] [] "v" "c")).error = some "boom"
    ∧ (runJob (process_upload (fun j => if j = 10 then some "boom" else none)
        [{ code := some "A" }] [] "v" "c")).insertedItems = 1 :=
  ⟨by decide, by decide, by decide⟩

/-- Witness for C2: the LLM call (index 7) raises `"LLM down"`: the job is
`failed` with that message and nothing was inserted. -/
theorem C2_failure_capture_witness :
    (runJob (process_upload (fun j => if j = 7 then some "LLM down" else none)
        [] [] "v" "c")).status = "failed"
    ∧ (runJob (process_upload (fun j => if j = 7 then some "LLM down" else none)
        [] [] "v" "c")).error = some "LLM down"
    ∧ (runJob (process_upload (fun j => if j = 7 then some "LLM down" else none)
        [] [] "v" "c")).insertedItems = 0 := by
  obtain ⟨_, h2, h3, h4⟩ := C2_failure_capture
    (fun j => if j = 7 then some "LLM down" else none) [] [] "v" "c" 7 "LLM down"
    (by decide)
  exact ⟨h2, h3, h4 (by decide)⟩

end Codebook
